import Mathlib

/-!
# Verification of the hyqw_adapter state-sync and command-throttling core

Shallow embedding of the state synchronization / command throttling subsystem:

* `src/state_manager.py`       — differential state cache (`StateManager`)
* `src/polling_bus.py`         — adaptive dual-rate polling scheduler (`PollingBus`)
* `src/throttled_action_bus.py`— FIFO command throttling bus
* `src/custom_components/hyqw_adapter/state_sync_router.py` — mode-switching router
* `src/custom_components/hyqw_adapter/mqtt_gateway.py`      — message-bus gateway

Python dicts are embedded as association lists in insertion order
(`dictInsert` replaces in place, appends new keys at the tail, exactly the
observable semantics of a CPython dict) where the code iterates over them,
and as point-updatable functions where the code only looks keys up.
Timestamps (`time.time()` / `datetime.now().timestamp()`) are passed in
explicitly as an `Int`-valued logical clock.  Logging calls are dropped.
-/

/-! ## Association-list dictionaries (CPython dict semantics) -/

/-- Lookup in an insertion-ordered dictionary. -/
def dictLookup {κ α : Type} [DecidableEq κ] (k : κ) : List (κ × α) → Option α
  | [] => none
  | p :: rest => if p.1 = k then some p.2 else dictLookup k rest

/-- `d[k] = v` on an insertion-ordered dictionary: replaces in place if the
key is present, appends at the tail otherwise. -/
def dictInsert {κ α : Type} [DecidableEq κ] (k : κ) (v : α) : List (κ × α) → List (κ × α)
  | [] => [(k, v)]
  | p :: rest => if p.1 = k then (k, v) :: rest else p :: dictInsert k v rest

/-- `del d[k]`: removes the (unique) binding of `k`, if any. -/
def dictErase {κ α : Type} [DecidableEq κ] (k : κ) : List (κ × α) → List (κ × α)
  | [] => []
  | p :: rest => if p.1 = k then rest else p :: dictErase k rest

/-- The keys of an association-list dictionary. -/
def dictKeys {κ α : Type} (l : List (κ × α)) : List κ := l.map Prod.fst

/-- A dictionary binds each key at most once. -/
def NodupKeys {κ α : Type} (l : List (κ × α)) : Prop := (dictKeys l).Nodup

/-! ## Data model (spec §3, from `state_manager.py`) -/

/-- One raw state observation `{st, si, fn, fv}` as delivered in batches. -/
structure RawStateEntry where
  st : Int
  si : Int
  fn : Int
  fv : Int
deriving Repr, DecidableEq

/-- A cached per-`(si, fn)` observation
`{fv: value, st: status, timestamp: time}` (`StateManager` cache leaf). -/
structure CachedState where
  fv : Int
  st : Int
  timestamp : Int
deriving Repr, DecidableEq

/-- Inner level of `_device_states_cache`: `fn ↦ CachedState`.  The code only
looks this map up and updates it pointwise, so it is embedded as a function. -/
abbrev InnerCache := Int → Option CachedState

/-- `_device_states_cache`: `si ↦ (fn ↦ CachedState)`. -/
abbrev Cache := Int → Option InnerCache

/-- The inner dictionaries of `_organize_states_data`, iterated in insertion
order by `_compare_states`. -/
abbrev InnerDict := List (Int × CachedState)

/-- The organized batch `{si: {fn: {fv, st, timestamp}}}`. -/
abbrev OrgDict := List (Int × InnerDict)

def emptyInner : InnerCache := fun _ => none

def emptyCache : Cache := fun _ => none

/-- `cache.get(si, {}).get(fn, {})`, as an `Option`. -/
def cacheLookup (c : Cache) (si fn : Int) : Option CachedState :=
  match c si with
  | none => none
  | some inner => inner fn

/-- Point update of an inner cache: `cache[si][fn] = e`. -/
def updFn (f : InnerCache) (fn : Int) (e : CachedState) : InnerCache :=
  fun g => if g = fn then some e else f g

/-- `for fn, state_info in new_states[si].items(): cache[si][fn] = state_info.copy()`. -/
def insertAllFns (base : InnerCache) (fns : InnerDict) : InnerCache :=
  fns.foldl (fun f q => updFn f q.1 q.2) base

/-- The change-set produced by `StateManager._compare_states`.  The Python
sets/dicts are kept as lists in the order the comparison loop builds them. -/
structure ChangeSet where
  has_changes : Bool
  changed_devices : List Int
  changed_functions : List (Int × List (Int × (Option Int × Int)))
  new_devices : List Int
  new_functions : List (Int × List Int)
deriving Repr, DecidableEq

def emptyChanges : ChangeSet := ⟨false, [], [], [], []⟩

/-! ## `StateManager._organize_states_data` -/

/-- Loop body of `_organize_states_data`: `organized[si][fn] = {fv, st, now}`
(in the embedding `si`/`fn` are always present, so the `is not None` guard
always passes). -/
def organizeStep (now : Int) (org : OrgDict) (e : RawStateEntry) : OrgDict :=
  let entry : CachedState := ⟨e.fv, e.st, now⟩
  match dictLookup e.si org with
  | some inner => dictInsert e.si (dictInsert e.fn entry inner) org
  | none => dictInsert e.si [(e.fn, entry)] org

/-- `StateManager._organize_states_data`: groups a batch by `si`; duplicate
`(si, fn)` pairs keep the last occurrence. -/
def organizeStatesData (now : Int) (batch : List RawStateEntry) : OrgDict :=
  batch.foldl (organizeStep now) []

/-! ## `StateManager._compare_states` -/

/-- Per-device accumulator: `device_changed`, `device_function_changes`,
`device_new_functions` of the `_compare_states` inner loop. -/
structure DeviceDiff where
  changed : Bool
  fnChanges : List (Int × (Option Int × Int))
  newFns : List Int
deriving Repr, DecidableEq

/-- Body of the `for fn, new_state in functions.items()` loop of
`_compare_states`. -/
def compareDeviceStep (c : Cache) (si : Int) (d : DeviceDiff) (q : Int × CachedState) :
    DeviceDiff :=
  if (c si).isNone || (cacheLookup c si q.1).isNone then
    { d with changed := true, newFns := d.newFns ++ [q.1] }
  else if (cacheLookup c si q.1).map CachedState.fv ≠ some q.2.fv then
    { d with changed := true,
             fnChanges :=
               d.fnChanges ++ [(q.1, ((cacheLookup c si q.1).map CachedState.fv, q.2.fv))] }
  else d

/-- The per-device part of `_compare_states`; `device_changed` starts out true
for a device absent from the cache (the new-device branch). -/
def compareDevice (c : Cache) (si : Int) (fns : InnerDict) : DeviceDiff :=
  fns.foldl (compareDeviceStep c si) ⟨(c si).isNone, [], []⟩

/-- `if si not in self._device_states_cache: changes["new_devices"].add(si)` —
the new-device bookkeeping `_compare_states` performs before the function
loop. -/
def markNewDevice (c : Cache) (ch : ChangeSet) (si : Int) : ChangeSet :=
  if (c si).isNone then { ch with new_devices := ch.new_devices ++ [si] } else ch

/-- Body of the `for si, functions in new_states.items()` loop of
`_compare_states`: record the device under `new_devices` if it is absent
from the cache, then, if anything about it changed, set `has_changes`, add it
to `changed_devices`, and record its non-empty function-change /
new-function dictionaries. -/
def compareStep (c : Cache) (ch : ChangeSet) (p : Int × InnerDict) : ChangeSet :=
  if (compareDevice c p.1 p.2).changed then
    { markNewDevice c ch p.1 with
      has_changes := true
      changed_devices := (markNewDevice c ch p.1).changed_devices ++ [p.1]
      changed_functions :=
        if (compareDevice c p.1 p.2).fnChanges.isEmpty
        then (markNewDevice c ch p.1).changed_functions
        else (markNewDevice c ch p.1).changed_functions ++
               [(p.1, (compareDevice c p.1 p.2).fnChanges)]
      new_functions :=
        if (compareDevice c p.1 p.2).newFns.isEmpty
        then (markNewDevice c ch p.1).new_functions
        else (markNewDevice c ch p.1).new_functions ++
               [(p.1, (compareDevice c p.1 p.2).newFns)] }
  else markNewDevice c ch p.1

/-- `StateManager._compare_states`. -/
def compareStates (c : Cache) (org : OrgDict) : ChangeSet :=
  org.foldl (compareStep c) emptyChanges

/-! ## `StateManager._update_states_cache` -/

/-- Body of the `for si in changes["changed_devices"]` loop:
`if si in new_states:` create the device slot if missing, then overwrite every
`(si, fn)` present in the organized batch for this device. -/
def updCacheStep (org : OrgDict) (c : Cache) (si : Int) : Cache :=
  match dictLookup si org with
  | none => c
  | some fns =>
    let base := (c si).getD emptyInner
    fun sj => if sj = si then some (insertAllFns base fns) else c sj

/-- `StateManager._update_states_cache`.  (`changed_devices` is a Python set;
updates to distinct `si` commute, so iterating it in the order
`_compare_states` discovered the devices is observationally faithful.) -/
def updateStatesCache (c : Cache) (org : OrgDict) (changed : List Int) : Cache :=
  changed.foldl (updCacheStep org) c

/-! ## `StateManager.process_state_update` and `force_update_device` -/

/-- A device-info record from `_devices_cache`.  Only the `si` key is read by
the code paths the claims observe (`force_update_device` looks for the first
device whose `"si"` equals the updated index); the remaining presentation
fields (`typeId`, derived attributes, `current_states`) are not modelled
because no claim observes them and they never feed back into the state cache
or the notification gating. -/
structure DeviceInfo where
  si : Option Int
deriving Repr, DecidableEq

/-- The `StateManager` state observed by the claims: the differential state
cache and the device-info cache.  Listener lists and the statistics dict are
not modelled (no claim mentions them). -/
structure SMState where
  cache : Cache
  devices : List DeviceInfo

/-- A `StateManager` as built by `__init__`: both caches empty. -/
def smInit (devices : List DeviceInfo) : SMState := ⟨emptyCache, devices⟩

/-- `StateManager.process_state_update`.  Returns the Python pair
`(bool, changes)` — the empty-batch early return `(False, {})` is embedded as
`(false, none)` — together with the updated manager state.
`_update_device_properties` / `_notify_state_listeners` only derive
presentation data from the change-set; the change-set itself is returned. -/
def process_state_update (s : SMState) (batch : List RawStateEntry) (now : Int) :
    (Bool × Option ChangeSet) × SMState :=
  if batch = [] then ((false, none), s)
  else
    let org := organizeStatesData now batch
    let ch := compareStates s.cache org
    if ch.has_changes then
      ((true, some ch), { s with cache := updateStatesCache s.cache org ch.changed_devices })
    else ((false, some ch), s)

/-- `StateManager.force_update_device`: unconditionally overwrites the cache
entry for `(si, fn)` with `fv`, the synthetic default `st = 10101` and the
current timestamp; then, only if some cached device record has a matching
`si`, notifies the listeners with an unconditional change-set.  The returned
`Option ChangeSet` is the change-set handed to `_notify_state_listeners`
(`none` when no device matched and no notification is sent). -/
def force_update_device (s : SMState) (si fn fv : Int) (now : Int) :
    SMState × Option ChangeSet :=
  let base := (s.cache si).getD emptyInner
  let old_fv : Option Int := (base fn).map CachedState.fv
  let entry : CachedState := ⟨fv, 10101, now⟩
  let cache1 : Cache := fun sj => if sj = si then some (updFn base fn entry) else s.cache sj
  let s1 : SMState := { s with cache := cache1 }
  match s.devices.find? (fun d => d.si == some si) with
  | none => (s1, none)
  | some _ =>
    (s1, some { has_changes := true
                changed_devices := [si]
                changed_functions := [(si, [(fn, (old_fv, fv))])]
                new_devices := []
                new_functions := [] })

/-! ## `PollingBus` (`src/polling_bus.py`) -/

/-- The scheduler's two modes. -/
inductive PollMode
  | long
  | short
deriving Repr, DecidableEq

/-- The polling configuration read from `self.config`. -/
structure PollingConfig where
  long_polling_interval : Int
  short_polling_interval : Int
  short_polling_duration : Int
deriving Repr, DecidableEq

/-- The mutable fields of `PollingBus` the claims observe.  Poll counters and
`last_poll_time` statistics are not modelled. -/
structure PollState where
  is_running : Bool
  current_mode : PollMode
  next_poll_time : Int
  short_polling_end_time : Int
  last_operation_time : Int
  mode_switches : Nat
deriving Repr, DecidableEq

/-- The state right after `PollingBus.start()` returns at time `now`:
running, long mode, first poll scheduled a full long interval out
(`__init__` zero-initialises the other timestamps). -/
def pollingStart (cfg : PollingConfig) (now : Int) : PollState :=
  ⟨true, PollMode.long, now + cfg.long_polling_interval, 0, 0, 0⟩

/-- `PollingBus.trigger_short_polling` called at time `now`: records the
operation time, sets `next_poll_time = now + short_interval` and
`short_polling_end_time = now + short_duration`, and switches to short mode
(counting a mode switch only if it was not already short). -/
def trigger_short_polling (cfg : PollingConfig) (s : PollState) (now : Int) : PollState :=
  let s1 := { s with
    last_operation_time := now
    next_poll_time := now + cfg.short_polling_interval
    short_polling_end_time := now + cfg.short_polling_duration }
  let oldMode := s.current_mode
  let s2 := { s1 with current_mode := PollMode.short }
  if oldMode ≠ PollMode.short then { s2 with mode_switches := s2.mode_switches + 1 } else s2

/-- `PollingBus._calculate_next_poll_time` evaluated at time `now`: in short
mode, if `short_polling_end_time - now ≤ 0` the burst is over — revert to
long mode and schedule `now + long_interval`; otherwise stay short and
schedule `now + short_interval`.  In long mode schedule `now + long_interval`. -/
def calculate_next_poll_time (cfg : PollingConfig) (s : PollState) (now : Int) : PollState :=
  match s.current_mode with
  | PollMode.short =>
    if s.short_polling_end_time - now ≤ 0 then
      { s with
        current_mode := PollMode.long
        next_poll_time := now + cfg.long_polling_interval
        mode_switches := s.mode_switches + 1 }
    else { s with next_poll_time := now + cfg.short_polling_interval }
  | PollMode.long => { s with next_poll_time := now + cfg.long_polling_interval }

/-- One undisturbed iteration of `PollingBus._polling_loop` entered at time
`enter`: the loop computes `sleep_time = next_poll_time - current_time` once,
sleeps it off if positive (waking at `max enter next_poll_time`), runs the
query callback, then recomputes the schedule.  Returns the wall-clock time of
the poll together with the recomputed state. -/
def loopIteration (cfg : PollingConfig) (s : PollState) (enter : Int) : Int × PollState :=
  let wake := max enter s.next_poll_time
  (wake, calculate_next_poll_time cfg s wake)

/-- One iteration of `PollingBus._polling_loop` during which
`trigger_short_polling` is called at time `trigAt` while the loop is inside
`asyncio.sleep`.  The sleep duration was computed from `next_poll_time`
before the trigger, and `trigger_short_polling` neither cancels the polling
task nor signals the sleeping coroutine — it only rewrites
`next_poll_time` / `short_polling_end_time` / `current_mode`, values the loop
rereads only after the sleep returns.  The loop therefore still wakes at the
originally computed deadline, polls there, and only then recomputes. -/
def loopIterWithMidSleepTrigger (cfg : PollingConfig) (s : PollState) (enter trigAt : Int) :
    Int × PollState :=
  let wake := max enter s.next_poll_time
  let s1 := trigger_short_polling cfg s trigAt
  (wake, calculate_next_poll_time cfg s1 wake)

/-! ## `OptimizedThrottledActionBus` (`src/throttled_action_bus.py`) -/

/-- `ActionStatus` enum. -/
inductive ActionStatus
  | pending
  | executing
  | completed
  | failed
  | cancelled
deriving Repr, DecidableEq

/-- The `DeviceAction` dataclass. -/
structure DeviceAction where
  device_id : Int
  st : Int
  si : Int
  fn : Int
  fv : Int
  action_id : String
  entity_id : String
  timestamp : Int
  status : ActionStatus
  result : Option Bool
  error_message : Option String
deriving Repr, DecidableEq

/-- The bus state the claims observe: the FIFO queue, the currently executing
action, the occupancy dict `entity_id ↦ action_id`, and the running flag.
The statistics dict is not modelled. -/
structure BusState where
  queue : List DeviceAction
  executing : Option DeviceAction
  occupied : List (String × String)
  is_running : Bool
deriving Repr, DecidableEq

/-- The rejection errors `submit_action` raises synchronously:
`RuntimeError` when the bus is not running, `ValueError` (contention) when the
target already has a live action. -/
inductive SubmitErr
  | notRunning
  | deviceOccupied (entity_id existing_action_id : String)
deriving Repr, DecidableEq

/-- `OptimizedThrottledActionBus.submit_action` at time `now` (seconds):
raises before touching any state if the bus is stopped or the target is
occupied; otherwise appends the new pending action to the queue tail, marks
the target occupied, and returns the generated
`action_{int(time.time() * 1000)}` id.  (The immediate `_process_queue`
task spawned when the queue was empty is modelled separately by
`processOne`.) -/
def submit_action (b : BusState) (device_id st si fn fv : Int) (entity_id : String)
    (now : Int) : Except SubmitErr String × BusState :=
  if b.is_running = false then (Except.error SubmitErr.notRunning, b)
  else
    match dictLookup entity_id b.occupied with
    | some existing => (Except.error (SubmitErr.deviceOccupied entity_id existing), b)
    | none =>
      let aid := "action_" ++ toString (1000 * now)
      let a : DeviceAction :=
        ⟨device_id, st, si, fn, fv, aid, entity_id, now, ActionStatus.pending, none, none⟩
      (Except.ok aid,
       { b with queue := b.queue ++ [a], occupied := dictInsert entity_id aid b.occupied })

/-- One pass of the `_process_queue` while-body: if the bus is running and the
queue non-empty, pops the head, marks it executing, runs
`_execute_action_flow` — whose burst trigger and fixed `wait_time` delay do
not touch the bus state, and whose injected control callback's outcome is
passed in as `success` — records the terminal status, then clears the
executing slot and deletes the target's occupancy entry. -/
def processOne (b : BusState) (success : Bool) : BusState :=
  if b.is_running = false then b
  else
    match b.queue with
    | [] => b
    | a :: rest =>
      let _done : DeviceAction :=
        { a with
          status := if success then ActionStatus.completed else ActionStatus.failed
          result := some success
          error_message := if success then none else some "执行回调返回False" }
      { b with
        queue := rest
        executing := none
        occupied := dictErase a.entity_id b.occupied }

/-! ## `MqttGateway` inbound handling (`mqtt_gateway.py`) -/

/-- The gateway statistics fields touched by `_handle_message`. -/
structure GatewayStats where
  messages_received : Nat
  messages_parsed : Nat
  parse_errors : Nat
deriving Repr, DecidableEq

/-- The decoded `data["payload"]` object: each of the four required fields is
present (`some`) or missing (`none`). -/
structure PushPayload where
  st : Option Int
  si : Option Int
  fn : Option Int
  fv : Option Int
deriving Repr, DecidableEq

/-- The shapes an inbound MQTT message can decode to:
`json.loads` raises, the decoded object has no dict `"payload"` member, or it
carries a payload dict. -/
inductive InboundMessage
  | invalidJson
  | noPayloadField
  | withPayload (p : PushPayload)
deriving Repr, DecidableEq

/-- `MqttGateway._normalize_state_data`: returns the `{st, si, fn, fv}`
record, or `None` if any required field is missing. -/
def normalize_state_data (p : PushPayload) : Option RawStateEntry :=
  match p.st, p.si, p.fn, p.fv with
  | some st, some si, some fn, some fv => some ⟨st, si, fn, fv⟩
  | _, _, _, _ => none

/-- `MqttGateway._handle_message`: always counts the message received; a JSON
decode failure counts a parse error; a payload whose normalization fails is
merely dropped (debug-logged, no counter); a normalized entry counts as
parsed and — when a state callback is configured (`hasCallback`) — is
forwarded as the one-element batch `[state_data]`.  Returns the updated
statistics and the batch handed to the callback, if any. -/
def handle_message (g : GatewayStats) (hasCallback : Bool) (m : InboundMessage) :
    GatewayStats × Option (List RawStateEntry) :=
  let g := { g with messages_received := g.messages_received + 1 }
  match m with
  | InboundMessage.invalidJson => ({ g with parse_errors := g.parse_errors + 1 }, none)
  | InboundMessage.noPayloadField => (g, none)
  | InboundMessage.withPayload p =>
    match normalize_state_data p with
    | some e =>
      let g := { g with messages_parsed := g.messages_parsed + 1 }
      (g, if hasCallback then some [e] else none)
    | none => (g, none)

/-! ## `StateSyncRouter` (`state_sync_router.py`) -/

/-- The router's two modes (`self.current_mode ∈ {"polling", "mqtt"}`). -/
inductive RouterMode
  | polling
  | mqtt
deriving Repr, DecidableEq

/-- The router state the claims observe: mode string, the two active flags,
the owned `StateManager`, and the three per-source update counters.  The
fallback task/interval, optimistic-echo flag and remaining statistics are not
modelled (no claim reads them, and `stop`/the handlers do not feed them back
into the modelled fields). -/
structure RouterState where
  current_mode : RouterMode
  mqtt_active : Bool
  polling_active : Bool
  sm : SMState
  mqtt_state_updates : Nat
  polling_state_updates : Nat
  fallback_checks : Nat

/-- `StateSyncRouter.__init__`: mode string `"polling"`, both active flags
false, counters zero. -/
def routerInit (sm : SMState) : RouterState :=
  ⟨RouterMode.polling, false, false, sm, 0, 0, 0⟩

/-- `StateSyncRouter.using_mqtt`. -/
def using_mqtt (r : RouterState) : Bool :=
  decide (r.current_mode = RouterMode.mqtt) && r.mqtt_active

/-- `StateSyncRouter.using_polling`. -/
def using_polling (r : RouterState) : Bool :=
  decide (r.current_mode = RouterMode.polling) && r.polling_active

/-- `StateSyncRouter.get_current_mode`. -/
def get_current_mode (r : RouterState) : RouterMode := r.current_mode

/-- The active flag belonging to a mode name. -/
def modeActiveFlag (r : RouterState) : RouterMode → Bool
  | RouterMode.polling => r.polling_active
  | RouterMode.mqtt => r.mqtt_active

/-- `StateSyncRouter.handle_mqtt_states`: drops the batch unless
`using_mqtt()`; otherwise runs it through the state manager and, only on
changes, bumps `mqtt_state_updates` and triggers the coordinator update
callback with the change-set (returned as the second component; `none`
when no notification is emitted). -/
def handle_mqtt_states (r : RouterState) (batch : List RawStateEntry) (now : Int) :
    RouterState × Option ChangeSet :=
  if using_mqtt r = false then (r, none)
  else
    let res := process_state_update r.sm batch now
    if res.1.1 then
      ({ r with sm := res.2, mqtt_state_updates := r.mqtt_state_updates + 1 }, res.1.2)
    else ({ r with sm := res.2 }, none)

/-- `StateSyncRouter.handle_polling_states`: same shape, gated on
`using_polling()`, counter `polling_state_updates`. -/
def handle_polling_states (r : RouterState) (batch : List RawStateEntry) (now : Int) :
    RouterState × Option ChangeSet :=
  if using_polling r = false then (r, none)
  else
    let res := process_state_update r.sm batch now
    if res.1.1 then
      ({ r with sm := res.2, polling_state_updates := r.polling_state_updates + 1 }, res.1.2)
    else ({ r with sm := res.2 }, none)

/-- `StateSyncRouter.handle_fallback_states`: same shape, gated on
`using_mqtt()`, counter `fallback_checks`. -/
def handle_fallback_states (r : RouterState) (batch : List RawStateEntry) (now : Int) :
    RouterState × Option ChangeSet :=
  if using_mqtt r = false then (r, none)
  else
    let res := process_state_update r.sm batch now
    if res.1.1 then
      ({ r with sm := res.2, fallback_checks := r.fallback_checks + 1 }, res.1.2)
    else ({ r with sm := res.2 }, none)

/-- `StateSyncRouter.stop`: cancels the fallback task (not modelled), stops
the polling bus if it was active, and clears both active flags; the mode
string is left as it was. -/
def routerStop (r : RouterState) : RouterState :=
  { r with mqtt_active := false, polling_active := false }

/-- The `(fn, fv)` shape of an inner dictionary (status and timestamp erased;
the comparison loop reads only `fv`). -/
def innerShape (fns : InnerDict) : List (Int × Int) := fns.map (fun q => (q.1, q.2.fv))

/-- The `(si, (fn, fv))` shape of an organized batch. -/
def orgShape (o : OrgDict) : List (Int × List (Int × Int)) :=
  o.map (fun p => (p.1, innerShape p.2))

/-- The cache agrees with an organized batch: every grouped device is cached
and every grouped `(si, fn)` pair is cached with the same `fv`. -/
def AgreesMem (c : Cache) (o : OrgDict) : Prop :=
  ∀ p ∈ o, ∃ inner, c p.1 = some inner ∧
    ∀ q ∈ p.2, ∃ ce, inner q.1 = some ce ∧ ce.fv = q.2.fv

/-! ## Generic fold and dictionary lemmas -/

/-- A property preserved by every step of a left fold holds of the result. -/
theorem foldl_inv {α β : Type} {P : α → Prop} (f : α → β → α)
    (h : ∀ a x, P a → P (f a x)) :
    ∀ (l : List β) (a : α), P a → P (l.foldl f a) := by
  intro l
  induction l with
  | nil => intro a ha; exact ha
  | cons x xs ih => intro a ha; exact ih (f a x) (h a x ha)

/-- Fold invariant where the step hypothesis may use membership of the
element in the folded list. -/
theorem foldl_inv_mem {α β : Type} {P : α → Prop} (f : α → β → α) :
    ∀ (l : List β), (∀ x ∈ l, ∀ a, P a → P (f a x)) →
      ∀ a, P a → P (l.foldl f a) := by
  intro l
  induction l with
  | nil => intro _ a ha; exact ha
  | cons x xs ih =>
    intro h a ha
    exact ih (fun y hy => h y (List.mem_cons_of_mem x hy)) (f a x)
      (h x (List.mem_cons_self x xs) a ha)

theorem dictLookup_insert_self {κ α : Type} [DecidableEq κ] (k : κ) (v : α) :
    ∀ l : List (κ × α), dictLookup k (dictInsert k v l) = some v := by
  intro l
  induction l with
  | nil => simp [dictInsert, dictLookup]
  | cons p rest ih =>
    by_cases hpk : p.1 = k
    · simp [dictInsert, hpk, dictLookup]
    · simp [dictInsert, hpk, dictLookup, ih]

theorem dictLookup_insert_ne {κ α : Type} [DecidableEq κ] {k k' : κ} (v : α)
    (hne : k' ≠ k) :
    ∀ l : List (κ × α), dictLookup k (dictInsert k' v l) = dictLookup k l := by
  intro l
  induction l with
  | nil => simp [dictInsert, dictLookup, hne]
  | cons p rest ih =>
    by_cases hpk : p.1 = k'
    · simp [dictInsert, hpk, dictLookup, hne, hpk ▸ hne]
    · simp only [dictInsert, hpk, if_false, dictLookup]
      by_cases hk : p.1 = k
      · simp [hk]
      · simp [hk, ih]

theorem mem_dictInsert {κ α : Type} [DecidableEq κ] {k : κ} {v : α} {p : κ × α} :
    ∀ {l : List (κ × α)}, p ∈ dictInsert k v l → p = (k, v) ∨ p ∈ l := by
  intro l
  induction l with
  | nil => intro hp; simp [dictInsert] at hp; exact Or.inl hp
  | cons q rest ih =>
    intro hp
    by_cases hqk : q.1 = k
    · simp only [dictInsert, hqk, if_true] at hp
      rcases List.mem_cons.mp hp with h | h
      · exact Or.inl h
      · exact Or.inr (List.mem_cons_of_mem q h)
    · simp only [dictInsert, hqk, if_false] at hp
      rcases List.mem_cons.mp hp with h | h
      · exact Or.inr (h ▸ List.mem_cons_self q rest)
      · rcases ih h with h' | h'
        · exact Or.inl h'
        · exact Or.inr (List.mem_cons_of_mem q h')

theorem dictInsert_ne_nil {κ α : Type} [DecidableEq κ] (k : κ) (v : α) :
    ∀ l : List (κ × α), dictInsert k v l ≠ [] := by
  intro l
  cases l with
  | nil => simp [dictInsert]
  | cons p rest =>
    by_cases hpk : p.1 = k <;> simp [dictInsert, hpk]

theorem mem_dictKeys_insert {κ α : Type} [DecidableEq κ] {j k : κ} {v : α} :
    ∀ {l : List (κ × α)}, j ∈ dictKeys (dictInsert k v l) → j = k ∨ j ∈ dictKeys l := by
  intro l hj
  rcases List.mem_map.mp hj with ⟨p, hp, hpj⟩
  rcases mem_dictInsert hp with h | h
  · exact Or.inl (by rw [← hpj, h])
  · exact Or.inr (List.mem_map.mpr ⟨p, h, hpj⟩)

theorem nodupKeys_dictInsert {κ α : Type} [DecidableEq κ] (k : κ) (v : α) :
    ∀ {l : List (κ × α)}, NodupKeys l → NodupKeys (dictInsert k v l) := by
  intro l
  induction l with
  | nil => intro _; simp [NodupKeys, dictKeys, dictInsert]
  | cons p rest ih =>
    intro hl
    have hrest : NodupKeys rest := (List.nodup_cons.mp hl).2
    have hpn : p.1 ∉ dictKeys rest := (List.nodup_cons.mp hl).1
    by_cases hpk : p.1 = k
    · unfold NodupKeys dictKeys at *
      simp only [dictInsert, hpk, if_true, List.map_cons]
      exact List.nodup_cons.mpr ⟨hpk ▸ hpn, hrest⟩
    · unfold NodupKeys dictKeys at *
      simp only [dictInsert, hpk, if_false, List.map_cons]
      refine List.nodup_cons.mpr ⟨?_, ih hrest⟩
      intro hmem
      rcases mem_dictKeys_insert hmem with h | h
      · exact hpk h
      · exact hpn h

theorem dictLookup_mem {κ α : Type} [DecidableEq κ] {k : κ} {v : α} :
    ∀ {l : List (κ × α)}, dictLookup k l = some v → (k, v) ∈ l := by
  intro l
  induction l with
  | nil => intro h; simp [dictLookup] at h
  | cons p rest ih =>
    intro h
    by_cases hpk : p.1 = k
    · simp only [dictLookup, hpk, if_true, Option.some.injEq] at h
      have : (k, v) = p := by
        apply Prod.ext <;> simp [hpk.symm, h.symm]
      rw [this]
      exact List.mem_cons_self p rest
    · simp only [dictLookup, hpk, if_false] at h
      exact List.mem_cons_of_mem p (ih h)

theorem mem_dictLookup_of_nodup {κ α : Type} [DecidableEq κ] {k : κ} {v : α} :
    ∀ {l : List (κ × α)}, NodupKeys l → (k, v) ∈ l → dictLookup k l = some v := by
  intro l
  induction l with
  | nil => intro _ h; simp at h
  | cons p rest ih =>
    intro hl hm
    have hpn : p.1 ∉ dictKeys rest := (List.nodup_cons.mp hl).1
    rcases List.mem_cons.mp hm with h | h
    · rw [← h]
      simp [dictLookup]
    · have hk : k ∈ dictKeys rest := List.mem_map.mpr ⟨(k, v), h, rfl⟩
      have hpk : p.1 ≠ k := fun he => hpn (he ▸ hk)
      simp only [dictLookup, hpk, if_false]
      exact ih (List.nodup_cons.mp hl).2 h

theorem dictLookup_eq_none_of_not_mem {κ α : Type} [DecidableEq κ] {k : κ} :
    ∀ {l : List (κ × α)}, k ∉ dictKeys l → dictLookup k l = none := by
  intro l
  induction l with
  | nil => intro _; rfl
  | cons p rest ih =>
    intro hk
    have h1 : p.1 ≠ k := fun he => hk (he ▸ List.mem_cons_self p.1 (dictKeys rest))
    have h2 : k ∉ dictKeys rest := fun hm => hk (List.mem_cons_of_mem p.1 hm)
    simp only [dictLookup, h1, if_false]
    exact ih h2

theorem dictErase_append_self {α : Type} {k : String} {v : α} :
    ∀ {l : List (String × α)}, dictLookup k l = none →
      dictErase k (l ++ [(k, v)]) = l := by
  intro l
  induction l with
  | nil => intro _; simp [dictErase]
  | cons p rest ih =>
    intro h
    by_cases hpk : p.1 = k
    · simp [dictLookup, hpk] at h
    · simp only [dictLookup, hpk, if_false] at h
      simp only [List.cons_append, dictErase, hpk, if_false]
      show p :: dictErase k (rest ++ [(k, v)]) = p :: rest
      rw [ih h]

/-! ## Invariants of `organizeStatesData` -/

theorem organize_nodupKeys (now : Int) (batch : List RawStateEntry) :
    NodupKeys (organizeStatesData now batch) := by
  unfold organizeStatesData
  refine foldl_inv (organizeStep now) ?_ batch [] ?_
  · intro org e h
    unfold organizeStep
    cases dictLookup e.si org <;> exact nodupKeys_dictInsert _ _ h
  · simp [NodupKeys, dictKeys]

theorem organize_inner_nodupKeys (now : Int) (batch : List RawStateEntry) :
    ∀ p ∈ organizeStatesData now batch, NodupKeys p.2 := by
  unfold organizeStatesData
  refine foldl_inv (P := fun o => ∀ p ∈ o, NodupKeys p.2) (organizeStep now) ?_ batch [] ?_
  · intro org e h p hp
    unfold organizeStep at hp
    cases hlk : dictLookup e.si org with
    | some inner =>
      rw [hlk] at hp
      rcases mem_dictInsert hp with h1 | h1
      · have hin : NodupKeys inner := h _ (dictLookup_mem hlk)
        rw [h1]
        exact nodupKeys_dictInsert _ _ hin
      · exact h p h1
    | none =>
      rw [hlk] at hp
      rcases mem_dictInsert hp with h1 | h1
      · rw [h1]; simp [NodupKeys, dictKeys]
      · exact h p h1
  · intro p hp; simp at hp

theorem organize_ne_nil (now : Int) {batch : List RawStateEntry} (h : batch ≠ []) :
    organizeStatesData now batch ≠ [] := by
  unfold organizeStatesData
  cases batch with
  | nil => exact absurd rfl h
  | cons e rest =>
    simp only [List.foldl_cons]
    have step_ne : ∀ (org : OrgDict) (x : RawStateEntry), organizeStep now org x ≠ [] := by
      intro org x
      unfold organizeStep
      cases dictLookup x.si org <;> exact dictInsert_ne_nil _ _ _
    refine foldl_inv (P := fun o => o ≠ []) (organizeStep now)
      (fun a x _ => step_ne a x) rest _ (step_ne [] e)

/-- Every `(si, fn)` pair in the organized batch comes from some batch entry. -/
theorem organize_mem_batch (now : Int) (batch : List RawStateEntry) :
    ∀ p ∈ organizeStatesData now batch, ∀ q ∈ p.2,
      ∃ e ∈ batch, e.si = p.1 ∧ e.fn = q.1 := by
  unfold organizeStatesData
  refine foldl_inv_mem
    (P := fun o => ∀ p ∈ o, ∀ q ∈ p.2, ∃ e ∈ batch, e.si = p.1 ∧ e.fn = q.1)
    (organizeStep now) batch ?_ [] ?_
  · intro x hx org h p hp q hq
    unfold organizeStep at hp
    cases hlk : dictLookup x.si org with
    | some inner =>
      rw [hlk] at hp
      rcases mem_dictInsert hp with h1 | h1
      · rcases Prod.ext_iff.mp h1 with ⟨hsi, hfns⟩
        rw [hfns] at hq
        rcases mem_dictInsert hq with h2 | h2
        · exact ⟨x, hx, hsi.symm, (Prod.ext_iff.mp h2).1.symm⟩
        · have := h (x.si, inner) (dictLookup_mem hlk) q h2
          rcases this with ⟨e, he, hesi, hefn⟩
          exact ⟨e, he, hsi ▸ hesi, hefn⟩
      · exact h p h1 q hq
    | none =>
      rw [hlk] at hp
      rcases mem_dictInsert hp with h1 | h1
      · rcases Prod.ext_iff.mp h1 with ⟨hsi, hfns⟩
        rw [hfns] at hq
        rcases List.mem_singleton.mp hq with h2
        exact ⟨x, hx, hsi.symm, by rw [h2]⟩
      · exact h p h1 q hq
  · intro p hp; simp at hp

/-! ## Shape of the organized batch is timestamp-independent -/

theorem dictLookup_map {κ α β : Type} [DecidableEq κ] (g : α → β) (k : κ) :
    ∀ l : List (κ × α),
      dictLookup k (l.map (fun p => (p.1, g p.2))) = (dictLookup k l).map g := by
  intro l
  induction l with
  | nil => rfl
  | cons p rest ih =>
    by_cases hpk : p.1 = k <;> simp [dictLookup, hpk, ih]

theorem dictInsert_map {κ α β : Type} [DecidableEq κ] (g : α → β) (k : κ) (v : α) :
    ∀ l : List (κ × α),
      (dictInsert k v l).map (fun p => (p.1, g p.2)) =
        dictInsert k (g v) (l.map (fun p => (p.1, g p.2))) := by
  intro l
  induction l with
  | nil => rfl
  | cons p rest ih =>
    by_cases hpk : p.1 = k <;> simp [dictInsert, hpk, ih]

theorem organize_shape_eq (now now' : Int) (batch : List RawStateEntry) :
    orgShape (organizeStatesData now batch) = orgShape (organizeStatesData now' batch) := by
  unfold organizeStatesData
  suffices h : ∀ (bs : List RawStateEntry) (o o' : OrgDict), orgShape o = orgShape o' →
      orgShape (bs.foldl (organizeStep now) o) = orgShape (bs.foldl (organizeStep now') o') by
    exact h batch [] [] rfl
  intro bs
  induction bs with
  | nil => intro o o' h; exact h
  | cons e rest ih =>
    intro o o' h
    simp only [List.foldl_cons]
    refine ih _ _ ?_
    have hl : (dictLookup e.si o).map innerShape = (dictLookup e.si o').map innerShape := by
      have h1 := dictLookup_map innerShape e.si o
      have h2 := dictLookup_map innerShape e.si o'
      unfold orgShape at h
      rw [← h1, ← h2, h]
    unfold organizeStep
    cases hlk : dictLookup e.si o with
    | none =>
      cases hlk' : dictLookup e.si o' with
      | none =>
        unfold orgShape
        rw [dictInsert_map innerShape, dictInsert_map innerShape]
        unfold orgShape at h
        rw [h]
        rfl
      | some inner' =>
        rw [hlk, hlk'] at hl
        simp at hl
    | some inner =>
      cases hlk' : dictLookup e.si o' with
      | none =>
        rw [hlk, hlk'] at hl
        simp at hl
      | some inner' =>
        rw [hlk, hlk'] at hl
        have hinner : innerShape inner = innerShape inner' := by
          simpa using hl
        unfold orgShape
        rw [dictInsert_map innerShape, dictInsert_map innerShape]
        unfold orgShape at h
        rw [h]
        have : innerShape (dictInsert e.fn ⟨e.fv, e.st, now⟩ inner) =
               innerShape (dictInsert e.fn ⟨e.fv, e.st, now'⟩ inner') := by
          unfold innerShape
          rw [dictInsert_map (fun q : CachedState => q.fv) e.fn _ inner,
              dictInsert_map (fun q : CachedState => q.fv) e.fn _ inner']
          unfold innerShape at hinner
          rw [hinner]
        rw [this]

/-! ## Comparison lemmas -/

@[simp]
theorem markNewDevice_has_changes (c : Cache) (ch : ChangeSet) (si : Int) :
    (markNewDevice c ch si).has_changes = ch.has_changes := by
  unfold markNewDevice; split <;> rfl

@[simp]
theorem markNewDevice_changed_devices (c : Cache) (ch : ChangeSet) (si : Int) :
    (markNewDevice c ch si).changed_devices = ch.changed_devices := by
  unfold markNewDevice; split <;> rfl

theorem compareStep_has_changes (c : Cache) (ch : ChangeSet) (p : Int × InnerDict) :
    (compareStep c ch p).has_changes =
      (ch.has_changes || (compareDevice c p.1 p.2).changed) := by
  unfold compareStep
  by_cases h : (compareDevice c p.1 p.2).changed = true
  · simp [h]
  · simp only [Bool.not_eq_true] at h
    simp [h]

theorem compareStep_changed_devices (c : Cache) (ch : ChangeSet) (p : Int × InnerDict) :
    (compareStep c ch p).changed_devices =
      if (compareDevice c p.1 p.2).changed then ch.changed_devices ++ [p.1]
      else ch.changed_devices := by
  unfold compareStep
  by_cases h : (compareDevice c p.1 p.2).changed = true
  · simp [h]
  · simp only [Bool.not_eq_true] at h
    simp [h]

theorem agrees_of_shape_eq {c : Cache} {o o' : OrgDict}
    (hs : orgShape o = orgShape o') (h : AgreesMem c o) : AgreesMem c o' := by
  intro p' hp'
  have hmem : (p'.1, innerShape p'.2) ∈ orgShape o := by
    rw [hs]
    exact List.mem_map.mpr ⟨p', hp', rfl⟩
  rcases List.mem_map.mp hmem with ⟨p, hp, hpe⟩
  simp only [Prod.mk.injEq] at hpe
  obtain ⟨hk, hshape⟩ := hpe
  rcases h p hp with ⟨inner, hc, hfns⟩
  refine ⟨inner, hk ▸ hc, ?_⟩
  intro q' hq'
  have hqmem : (q'.1, q'.2.fv) ∈ innerShape p.2 := by
    rw [hshape]
    exact List.mem_map.mpr ⟨q', hq', rfl⟩
  rcases List.mem_map.mp hqmem with ⟨q, hq, hqe⟩
  simp only [Prod.mk.injEq] at hqe
  obtain ⟨hqk, hqv⟩ := hqe
  rcases hfns q hq with ⟨ce, hce, hcv⟩
  exact ⟨ce, hqk ▸ hce, by rw [hcv, hqv]⟩

/-- Once `device_changed` is true it stays true through the function loop. -/
theorem compareDevice_changed_mono (c : Cache) (si : Int) :
    ∀ (fns : InnerDict) (d : DeviceDiff), d.changed = true →
      (fns.foldl (compareDeviceStep c si) d).changed = true := by
  intro fns
  refine foldl_inv (P := fun d : DeviceDiff => d.changed = true) (compareDeviceStep c si)
    ?_ fns
  intro d q hd
  unfold compareDeviceStep
  split
  · rfl
  · split
    · rfl
    · exact hd

/-- If the cache agrees on every function of a cached device, the function
loop leaves the accumulator untouched. -/
theorem compareDevice_fold_id (c : Cache) (si : Int) {inner : InnerCache}
    (hc : c si = some inner) :
    ∀ (fns : InnerDict),
      (∀ q ∈ fns, ∃ ce, inner q.1 = some ce ∧ ce.fv = q.2.fv) →
      ∀ d : DeviceDiff, fns.foldl (compareDeviceStep c si) d = d := by
  intro fns
  induction fns with
  | nil => intro _ d; rfl
  | cons q rest ih =>
    intro h d
    rcases h q (List.mem_cons_self q rest) with ⟨ce, hce, hcv⟩
    have hlook : cacheLookup c si q.1 = some ce := by
      unfold cacheLookup
      rw [hc]
      exact hce
    have hstep : compareDeviceStep c si d q = d := by
      unfold compareDeviceStep
      rw [hc, hlook]
      simp [hcv]
    simp only [List.foldl_cons, hstep]
    exact ih (fun r hr => h r (List.mem_cons_of_mem q hr)) d

/-- Against an agreeing cache the whole comparison produces the empty
change-set. -/
theorem compareStates_of_agrees {c : Cache} :
    ∀ {o : OrgDict}, AgreesMem c o → compareStates c o = emptyChanges := by
  have main : ∀ (o : OrgDict), AgreesMem c o →
      ∀ ch : ChangeSet, o.foldl (compareStep c) ch = ch := by
    intro o
    induction o with
    | nil => intro _ ch; rfl
    | cons p rest ih =>
      intro h ch
      rcases h p (List.mem_cons_self p rest) with ⟨inner, hc, hfns⟩
      have hnn : (c p.1).isNone = false := by rw [hc]; rfl
      have hdev : compareDevice c p.1 p.2 = ⟨false, [], []⟩ := by
        unfold compareDevice
        rw [hnn]
        exact compareDevice_fold_id c p.1 hc p.2 hfns _
      have hmark : markNewDevice c ch p.1 = ch := by
        unfold markNewDevice
        rw [hnn]
        simp
      have hstep : compareStep c ch p = ch := by
        unfold compareStep
        rw [hdev, hmark]
        simp
      simp only [List.foldl_cons, hstep]
      exact ih (fun r hr => h r (List.mem_cons_of_mem p hr)) ch
  intro o h
  unfold compareStates
  exact main o h _

/-- `changed_devices` only grows during the device loop. -/
theorem foldl_changed_devices_sub (c : Cache) :
    ∀ (o : OrgDict) (ch : ChangeSet),
      ch.changed_devices ⊆ (o.foldl (compareStep c) ch).changed_devices := by
  intro o
  induction o with
  | nil => intro ch; exact fun a ha => ha
  | cons p rest ih =>
    intro ch a ha
    refine ih (compareStep c ch p) ?_
    rw [compareStep_changed_devices]
    split
    · exact List.mem_append_left _ ha
    · exact ha

/-- A device whose per-device diff says `changed` ends up in
`changed_devices`. -/
theorem mem_changed_devices_of_changed (c : Cache) :
    ∀ (o : OrgDict) (ch : ChangeSet) (p : Int × InnerDict), p ∈ o →
      (compareDevice c p.1 p.2).changed = true →
      p.1 ∈ (o.foldl (compareStep c) ch).changed_devices := by
  intro o
  induction o with
  | nil => intro ch p hp; simp at hp
  | cons r rest ih =>
    intro ch p hp hchanged
    rcases List.mem_cons.mp hp with h | h
    · subst h
      simp only [List.foldl_cons]
      refine foldl_changed_devices_sub c rest (compareStep c ch p) ?_
      rw [compareStep_changed_devices, if_pos hchanged]
      exact List.mem_append_right _ (List.mem_singleton.mpr rfl)
    · exact ih (compareStep c ch r) p h hchanged

/-- If the per-device diff says unchanged, the device is cached and every
grouped function is cached with an equal value. -/
theorem compareDevice_unchanged_elim (c : Cache) (si : Int) :
    ∀ (fns : InnerDict) (d : DeviceDiff),
      (fns.foldl (compareDeviceStep c si) d).changed = false →
      d.changed = false ∧
        ∀ q ∈ fns, ∃ ce, cacheLookup c si q.1 = some ce ∧ ce.fv = q.2.fv := by
  intro fns
  induction fns with
  | nil => intro d h; exact ⟨h, by intro q hq; simp at hq⟩
  | cons q rest ih =>
    intro d h
    simp only [List.foldl_cons] at h
    rcases ih (compareDeviceStep c si d q) h with ⟨hstep, hrest⟩
    by_cases h1 : ((c si).isNone || (cacheLookup c si q.1).isNone) = true
    · exfalso
      unfold compareDeviceStep at hstep
      rw [if_pos h1] at hstep
      simp at hstep
    · have h1' : ((c si).isNone || (cacheLookup c si q.1).isNone) = false :=
        Bool.eq_false_iff.mpr h1
      have hlknn : (cacheLookup c si q.1).isNone = false :=
        (Bool.or_eq_false_iff.mp h1').2
      obtain ⟨ce, hce⟩ : ∃ ce, cacheLookup c si q.1 = some ce := by
        cases hx : cacheLookup c si q.1 with
        | none => rw [hx] at hlknn; simp at hlknn
        | some ce => exact ⟨ce, rfl⟩
      by_cases h2 : (cacheLookup c si q.1).map CachedState.fv ≠ some q.2.fv
      · exfalso
        unfold compareDeviceStep at hstep
        rw [if_neg h1, if_pos h2] at hstep
        simp at hstep
      · have hdeq : compareDeviceStep c si d q = d := by
          unfold compareDeviceStep
          rw [if_neg h1, if_neg h2]
        have hfv : ce.fv = q.2.fv := by
          push_neg at h2
          rw [hce] at h2
          simpa using h2
        refine ⟨hdeq ▸ hstep, ?_⟩
        intro r hr
        rcases List.mem_cons.mp hr with h | h
        · subst h
          exact ⟨ce, hce, hfv⟩
        · exact hrest r h

/-! ## Cache-update lemmas -/

theorem insertAll_not_mem_key {fn : Int} :
    ∀ {fns : InnerDict}, fn ∉ dictKeys fns →
      ∀ b : InnerCache, insertAllFns b fns fn = b fn := by
  intro fns
  induction fns with
  | nil => intro _ b; rfl
  | cons q rest ih =>
    intro h b
    have hq : q.1 ≠ fn := fun he => h (he ▸ List.mem_cons_self q.1 (dictKeys rest))
    have hrest : fn ∉ dictKeys rest := fun hm => h (List.mem_cons_of_mem q.1 hm)
    unfold insertAllFns at *
    simp only [List.foldl_cons]
    rw [ih hrest]
    unfold updFn
    rw [if_neg (show ¬fn = q.1 from fun he => hq he.symm)]

theorem insertAll_lookup_mem {q : Int × CachedState} :
    ∀ {fns : InnerDict}, NodupKeys fns → q ∈ fns →
      ∀ b : InnerCache, insertAllFns b fns q.1 = some q.2 := by
  intro fns
  induction fns with
  | nil => intro _ h; simp at h
  | cons r rest ih =>
    intro hnd hq b
    have hrn : r.1 ∉ dictKeys rest := (List.nodup_cons.mp hnd).1
    rcases List.mem_cons.mp hq with h | h
    · subst h
      unfold insertAllFns
      simp only [List.foldl_cons]
      have : InnerDict := rest
      show insertAllFns (updFn b q.1 q.2) rest q.1 = some q.2
      rw [insertAll_not_mem_key hrn]
      unfold updFn
      simp
    · unfold insertAllFns
      simp only [List.foldl_cons]
      exact ih (List.nodup_cons.mp hnd).2 h (updFn b r.1 r.2)

theorem updFold_not_mem (org : OrgDict) {si : Int} :
    ∀ {changed : List Int}, si ∉ changed →
      ∀ c : Cache, (changed.foldl (updCacheStep org) c) si = c si := by
  intro changed
  induction changed with
  | nil => intro _ c; rfl
  | cons sj rest ih =>
    intro h c
    have hj : sj ≠ si := fun he => h (he ▸ List.mem_cons_self sj rest)
    have hrest : si ∉ rest := fun hm => h (List.mem_cons_of_mem sj hm)
    simp only [List.foldl_cons]
    rw [ih hrest]
    unfold updCacheStep
    cases dictLookup sj org with
    | none => rfl
    | some fns =>
      show (if si = sj then some (insertAllFns ((c sj).getD emptyInner) fns) else c si) = c si
      rw [if_neg (show ¬si = sj from fun he => hj he.symm)]

theorem updFold_mem (org : OrgDict) {si : Int} {fns : InnerDict}
    (hlk : dictLookup si org = some fns) :
    ∀ {changed : List Int}, si ∈ changed →
      ∀ c : Cache, ∃ b, (changed.foldl (updCacheStep org) c) si = some (insertAllFns b fns) := by
  have preserve : ∀ (rest : List Int) (c : Cache),
      (∃ b, c si = some (insertAllFns b fns)) →
      ∃ b, (rest.foldl (updCacheStep org) c) si = some (insertAllFns b fns) := by
    intro rest
    refine foldl_inv (P := fun c : Cache => ∃ b, c si = some (insertAllFns b fns))
      (updCacheStep org) ?_ rest
    intro c sj hc
    unfold updCacheStep
    cases hsj : dictLookup sj org with
    | none => exact hc
    | some gns =>
      by_cases he : sj = si
      · subst he
        rw [hsj] at hlk
        obtain rfl : gns = fns := Option.some.inj hlk
        refine ⟨(c sj).getD emptyInner, ?_⟩
        show (if sj = sj then some (insertAllFns ((c sj).getD emptyInner) gns)
              else c sj) = _
        rw [if_pos rfl]
      · rcases hc with ⟨b, hb⟩
        refine ⟨b, ?_⟩
        show (if si = sj then some (insertAllFns ((c sj).getD emptyInner) gns)
              else c si) = _
        rw [if_neg (show ¬si = sj from fun hx => he hx.symm)]
        exact hb
  intro changed
  induction changed with
  | nil => intro h; simp at h
  | cons sj rest ih =>
    intro h c
    simp only [List.foldl_cons]
    by_cases he : sj = si
    · subst he
      refine preserve rest _ ?_
      refine ⟨(c sj).getD emptyInner, ?_⟩
      unfold updCacheStep
      rw [hlk]
      show (if sj = sj then some (insertAllFns ((c sj).getD emptyInner) fns)
            else c sj) = _
      rw [if_pos rfl]
    · rcases List.mem_cons.mp h with h' | h'
      · exact absurd h'.symm he
      · exact ih h' (updCacheStep org c sj)

/-- After `_update_states_cache`, the cache agrees with the organized batch it
was updated from. -/
theorem agrees_after_update (c : Cache) (o : OrgDict)
    (hk : NodupKeys o) (hi : ∀ p ∈ o, NodupKeys p.2) :
    AgreesMem (updateStatesCache c o (compareStates c o).changed_devices) o := by
  intro p hp
  by_cases hmem : p.1 ∈ (compareStates c o).changed_devices
  · have hlk : dictLookup p.1 o = some p.2 := mem_dictLookup_of_nodup hk hp
    rcases updFold_mem o hlk hmem c with ⟨b, hb⟩
    refine ⟨insertAllFns b p.2, hb, ?_⟩
    intro q hq
    exact ⟨q.2, insertAll_lookup_mem (hi p hp) hq b, rfl⟩
  · have hnc : (compareDevice c p.1 p.2).changed = false := by
      cases hcd : (compareDevice c p.1 p.2).changed with
      | false => rfl
      | true =>
        exact absurd (mem_changed_devices_of_changed c o emptyChanges p hp hcd) hmem
    unfold compareDevice at hnc
    rcases compareDevice_unchanged_elim c p.1 p.2 _ hnc with ⟨hinit, hfns⟩
    have hcc : (c p.1).isNone = false := by simpa using hinit
    have hsome : ∃ inner, c p.1 = some inner := by
      cases hx : c p.1 with
      | none =>
        rw [hx] at hcc
        simp at hcc
      | some inner => exact ⟨inner, rfl⟩
    rcases hsome with ⟨inner, hinner⟩
    have hceq : (updateStatesCache c o (compareStates c o).changed_devices) p.1 = c p.1 :=
      updFold_not_mem o hmem c
    refine ⟨inner, by rw [hceq, hinner], ?_⟩
    intro q hq
    rcases hfns q hq with ⟨ce, hce, hfv⟩
    unfold cacheLookup at hce
    rw [hinner] at hce
    exact ⟨ce, hce, hfv⟩

/-! ## Change-set invariant and idempotence -/

/-- The `_compare_states` loop keeps `has_changes` equal to
non-emptiness of `changed_devices`. -/
theorem compareStates_has_changes_iff (c : Cache) (o : OrgDict) :
    (compareStates c o).has_changes = true ↔
      (compareStates c o).changed_devices ≠ [] := by
  unfold compareStates
  refine foldl_inv
    (P := fun ch : ChangeSet => ch.has_changes = true ↔ ch.changed_devices ≠ [])
    (compareStep c) ?_ o emptyChanges ?_
  · intro ch p hch
    rw [compareStep_has_changes, compareStep_changed_devices]
    cases hd : (compareDevice c p.1 p.2).changed with
    | true => simp
    | false => simpa using hch
  · simp [emptyChanges]

/-- `has_changes` only ever switches from false to true during the loop. -/
theorem compareStates_has_changes_mono (c : Cache) :
    ∀ (o : OrgDict) (ch : ChangeSet), ch.has_changes = true →
      (o.foldl (compareStep c) ch).has_changes = true := by
  intro o
  refine foldl_inv (P := fun ch : ChangeSet => ch.has_changes = true) (compareStep c) ?_ o
  intro ch p h
  rw [compareStep_has_changes, h]
  rfl

/-- Against the empty cache, a non-empty organized batch always reports
changes (every device is new). -/
theorem compareStates_emptyCache_has_changes {o : OrgDict} (h : o ≠ []) :
    (compareStates emptyCache o).has_changes = true := by
  unfold compareStates
  cases o with
  | nil => exact absurd rfl h
  | cons p rest =>
    simp only [List.foldl_cons]
    refine compareStates_has_changes_mono emptyCache rest _ ?_
    rw [compareStep_has_changes]
    have hchanged : (compareDevice emptyCache p.1 p.2).changed = true := by
      unfold compareDevice
      refine compareDevice_changed_mono emptyCache p.1 p.2 _ ?_
      rfl
    rw [hchanged]
    simp

/-- After any `process_state_update`, the resulting cache agrees with the
organized form of the same batch at any timestamp. -/
theorem process_agrees (s : SMState) (batch : List RawStateEntry) (now m : Int)
    (hb : batch ≠ []) :
    AgreesMem (process_state_update s batch now).2.cache (organizeStatesData m batch) := by
  have hshape := organize_shape_eq now m batch
  refine agrees_of_shape_eq hshape ?_
  unfold process_state_update
  rw [if_neg hb]
  by_cases hch : (compareStates s.cache (organizeStatesData now batch)).has_changes = true
  · rw [if_pos hch]
    exact agrees_after_update s.cache (organizeStatesData now batch)
      (organize_nodupKeys now batch) (organize_inner_nodupKeys now batch)
  · rw [if_neg hch]
    intro p hp
    have hnc : (compareDevice s.cache p.1 p.2).changed = false := by
      cases hcd : (compareDevice s.cache p.1 p.2).changed with
      | false => rfl
      | true =>
        exfalso
        have hmem := mem_changed_devices_of_changed s.cache _ emptyChanges p hp hcd
        have hne : (compareStates s.cache (organizeStatesData now batch)).changed_devices ≠ [] := by
          unfold compareStates
          intro he
          rw [he] at hmem
          simp at hmem
        exact hch ((compareStates_has_changes_iff s.cache _).mpr hne)
    unfold compareDevice at hnc
    rcases compareDevice_unchanged_elim s.cache p.1 p.2 _ hnc with ⟨hinit, hfns⟩
    have hcc : (s.cache p.1).isNone = false := by simpa using hinit
    obtain ⟨inner, hinner⟩ : ∃ inner, s.cache p.1 = some inner := by
      cases hx : s.cache p.1 with
      | none => rw [hx] at hcc; simp at hcc
      | some inner => exact ⟨inner, rfl⟩
    refine ⟨inner, hinner, ?_⟩
    intro q hq
    rcases hfns q hq with ⟨ce, hce, hfv⟩
    unfold cacheLookup at hce
    rw [hinner] at hce
    exact ⟨ce, hce, hfv⟩

/-- Feeding the same batch again right after processing it reports no
changes. -/
theorem process_second_call_false (s : SMState) (batch : List RawStateEntry)
    (now1 now2 : Int) :
    ((process_state_update (process_state_update s batch now1).2 batch now2).1).1 = false := by
  by_cases hb : batch = []
  · subst hb
    rfl
  · set s1 := (process_state_update s batch now1).2 with hs1
    have hagrees : AgreesMem s1.cache (organizeStatesData now2 batch) :=
      process_agrees s batch now1 now2 hb
    have hcmp := compareStates_of_agrees hagrees
    show (process_state_update s1 batch now2).1.1 = false
    simp only [process_state_update, if_neg hb, hcmp]
    rfl

/-! ## Frame lemmas for the cache update -/

theorem cacheLookup_update_self (c : Cache) (si : Int) (inner : InnerCache) (fn : Int) :
    cacheLookup (fun sk => if sk = si then some inner else c sk) si fn = inner fn := by
  unfold cacheLookup
  simp

theorem cacheLookup_update_ne (c : Cache) {si sj : Int} (inner : InnerCache) (fn : Int)
    (h : si ≠ sj) :
    cacheLookup (fun sk => if sk = sj then some inner else c sk) si fn =
      cacheLookup c si fn := by
  unfold cacheLookup
  simp [h]

/-- A cache entry `(si, fn)` survives `process_state_update` untouched when
its device is not among the changed devices, or when no batch entry addresses
that exact `(si, fn)` pair. -/
theorem process_frame (s : SMState) (batch : List RawStateEntry) (now si fn : Int)
    (h : si ∉ (compareStates s.cache (organizeStatesData now batch)).changed_devices ∨
         ∀ e ∈ batch, ¬(e.si = si ∧ e.fn = fn)) :
    cacheLookup (process_state_update s batch now).2.cache si fn =
      cacheLookup s.cache si fn := by
  by_cases hb : batch = []
  · subst hb; rfl
  · unfold process_state_update
    rw [if_neg hb]
    by_cases hch :
        (compareStates s.cache (organizeStatesData now batch)).has_changes = true
    · rw [if_pos hch]
      show cacheLookup (updateStatesCache s.cache (organizeStatesData now batch)
        (compareStates s.cache (organizeStatesData now batch)).changed_devices) si fn =
        cacheLookup s.cache si fn
      unfold updateStatesCache
      refine foldl_inv_mem
        (P := fun c1 : Cache => cacheLookup c1 si fn = cacheLookup s.cache si fn)
        (updCacheStep (organizeStatesData now batch)) _ ?_ s.cache rfl
      intro sj hsj c1 hc1
      by_cases hji : sj = si
      · subst hji
        rcases h with h | h
        · exact absurd hsj h
        · unfold updCacheStep
          cases hlk : dictLookup sj (organizeStatesData now batch) with
          | none => exact hc1
          | some fns =>
            have hnotin : fn ∉ dictKeys fns := by
              intro hmem
              rcases List.mem_map.mp hmem with ⟨q, hq, hq1⟩
              rcases organize_mem_batch now batch _ (dictLookup_mem hlk) q hq with
                ⟨e, he, hesi, hefn⟩
              exact h e he ⟨hesi, by rw [hefn, hq1]⟩
            show cacheLookup (fun sk => if sk = sj then
                some (insertAllFns ((c1 sj).getD emptyInner) fns) else c1 sk) sj fn =
              cacheLookup s.cache sj fn
            rw [cacheLookup_update_self, insertAll_not_mem_key hnotin, ← hc1]
            unfold cacheLookup
            cases hx : c1 sj with
            | none => rfl
            | some inner => rfl
      · unfold updCacheStep
        cases dictLookup sj (organizeStatesData now batch) with
        | none => exact hc1
        | some fns =>
          show cacheLookup (fun sk => if sk = sj then
              some (insertAllFns ((c1 sj).getD emptyInner) fns) else c1 sk) si fn =
            cacheLookup s.cache si fn
          rw [cacheLookup_update_ne _ _ _ (fun he => hji he.symm)]
          exact hc1
    · rw [if_neg hch]

/-- Every `(si, fn)` pair grouped for a changed device is overwritten with its
batch value (and the batch timestamp), even when the value is unchanged. -/
theorem process_overwrite (s : SMState) (batch : List RawStateEntry) (now : Int)
    {p : Int × InnerDict} (hp : p ∈ organizeStatesData now batch)
    (hmem : p.1 ∈ (compareStates s.cache (organizeStatesData now batch)).changed_devices)
    {q : Int × CachedState} (hq : q ∈ p.2) :
    cacheLookup (process_state_update s batch now).2.cache p.1 q.1 = some q.2 := by
  have hb : batch ≠ [] := by
    intro he
    subst he
    simp [organizeStatesData] at hp
  have hch : (compareStates s.cache (organizeStatesData now batch)).has_changes = true := by
    refine (compareStates_has_changes_iff s.cache _).mpr ?_
    intro he
    rw [he] at hmem
    simp at hmem
  unfold process_state_update
  rw [if_neg hb, if_pos hch]
  show cacheLookup (updateStatesCache s.cache (organizeStatesData now batch)
      (compareStates s.cache (organizeStatesData now batch)).changed_devices) p.1 q.1 =
    some q.2
  have hlk : dictLookup p.1 (organizeStatesData now batch) = some p.2 :=
    mem_dictLookup_of_nodup (organize_nodupKeys now batch) hp
  rcases updFold_mem (organizeStatesData now batch) hlk hmem s.cache with ⟨b, hb1⟩
  unfold cacheLookup updateStatesCache
  rw [hb1]
  exact insertAll_lookup_mem (organize_inner_nodupKeys now batch p hp) hq b

/-! ## Claim theorems -/

/-- C2 (counterexample): the claim quantifies over every non-empty batch and
every run of two consecutive identical calls, but a batch that merely repeats
what the cache already holds yields `hasChanges = false` already on the first
of the two calls: after `[{st:10101, si:5, fn:1, fv:1}]` has been processed
once, processing it twice more in a row gives `false` on the first of those
two calls, not `true`. -/
theorem C2_counterexample :
    (process_state_update (process_state_update (smInit []) [⟨10101, 5, 1, 1⟩] 100).2
      [⟨10101, 5, 1, 1⟩] 101).1.1 = false := by decide

/-- C2 (amended): feeding the same batch to `process_state_update` twice in a
row yields `hasChanges = false` on the second call from every starting state;
the first call yields `hasChanges = true` whenever the batch is non-empty and
the cache is empty — in particular the concrete scenario holds:
`[{st:10101, si:5, fn:1, fv:1}]` against the empty cache gives
`hasChanges = true`, `newDevices = {5}`, `changedFunctions = {}`, and the
second identical call gives `hasChanges = false`. -/
theorem C2_idempotence_amended :
    (∀ (s : SMState) (batch : List RawStateEntry) (now1 now2 : Int),
       (process_state_update (process_state_update s batch now1).2 batch now2).1.1 = false) ∧
    (∀ (batch : List RawStateEntry) (now : Int) (devs : List DeviceInfo), batch ≠ [] →
       (process_state_update (smInit devs) batch now).1.1 = true) ∧
    ((process_state_update (smInit []) [⟨10101, 5, 1, 1⟩] 100).1.1 = true ∧
     (process_state_update (smInit []) [⟨10101, 5, 1, 1⟩] 100).1.2 =
       some ⟨true, [5], [], [5], [(5, [1])]⟩ ∧
     (process_state_update (process_state_update (smInit []) [⟨10101, 5, 1, 1⟩] 100).2
       [⟨10101, 5, 1, 1⟩] 101).1.1 = false) := by
  refine ⟨process_second_call_false, ?_, by decide, by decide, by decide⟩
  intro batch now devs hb
  unfold process_state_update
  rw [if_neg hb]
  have h1 : (compareStates (smInit devs).cache (organizeStatesData now batch)).has_changes
      = true :=
    compareStates_emptyCache_has_changes (organize_ne_nil now hb)
  rw [if_pos h1]

/-- C2 (witness): the amended theorem applied to the one-entry batch
`{st:10101, si:7, fn:2, fv:3}` on a fresh manager. -/
theorem C2_witness :
    (process_state_update (smInit []) [⟨10101, 7, 2, 3⟩] 50).1.1 = true :=
  C2_idempotence_amended.2.1 [⟨10101, 7, 2, 3⟩] 50 [] (by decide)

/-- C9: the pair returned by `process_state_update` pairs the boolean with a
change-set satisfying `has_changes = true ↔ changed_devices ≠ ∅`; the boolean
equals the change-set's `has_changes` flag, and the empty-batch early return
`(False, {})` (embedded as `(false, none)`) carries `false`. -/
theorem C9_changeset_invariant (s : SMState) (batch : List RawStateEntry) (now : Int) :
    ((process_state_update s batch now).1.2 = none →
       (process_state_update s batch now).1.1 = false) ∧
    (∀ ch : ChangeSet, (process_state_update s batch now).1.2 = some ch →
       (process_state_update s batch now).1.1 = ch.has_changes ∧
         (ch.has_changes = true ↔ ch.changed_devices ≠ [])) := by
  have hiff := compareStates_has_changes_iff s.cache (organizeStatesData now batch)
  by_cases hb : batch = []
  · subst hb
    exact ⟨fun _ => rfl, fun ch h => by simp [process_state_update] at h⟩
  · simp only [process_state_update, if_neg hb]
    by_cases hch :
        (compareStates s.cache (organizeStatesData now batch)).has_changes = true
    · rw [if_pos hch]
      refine ⟨fun h => by simp at h, ?_⟩
      intro ch h
      obtain rfl : compareStates s.cache (organizeStatesData now batch) = ch :=
        Option.some.inj (by simpa using h)
      exact ⟨hch.symm, hiff⟩
    · rw [if_neg hch]
      refine ⟨fun h => by simp at h, ?_⟩
      intro ch h
      obtain rfl : compareStates s.cache (organizeStatesData now batch) = ch :=
        Option.some.inj (by simpa using h)
      exact ⟨(Bool.not_eq_true _ ▸ hch : _ = false).symm, hiff⟩

/-- C9 (witness): the invariant evaluated on the empty batch and on the
concrete one-entry batch from the scenario. -/
theorem C9_witness :
    (process_state_update (smInit []) [] 0).1.1 = false ∧
    ((process_state_update (smInit []) [⟨10101, 5, 1, 1⟩] 100).1.1 =
       (⟨true, [5], [], [5], [(5, [1])]⟩ : ChangeSet).has_changes ∧
     ((⟨true, [5], [], [5], [(5, [1])]⟩ : ChangeSet).has_changes = true ↔
       (⟨true, [5], [], [5], [(5, [1])]⟩ : ChangeSet).changed_devices ≠ [])) :=
  ⟨(C9_changeset_invariant (smInit []) [] 0).1 rfl,
   (C9_changeset_invariant (smInit []) [⟨10101, 5, 1, 1⟩] 100).2 _ (by decide)⟩

/-- C7 (counterexample): the claim says only changed or new `(si, fn)` pairs
are overwritten, but `_update_states_cache` rewrites every batch pair of a
changed device.  With `(5, 1) ↦ {fv:1, ts:100}` cached, the batch
`[{si:5, fn:1, fv:1}, {si:5, fn:2, fv:7}]` reports `(5,1)` neither under
`changed_functions` nor under `new_functions` (only `fn=2` is new), yet the
`(5,1)` entry is overwritten: its timestamp becomes 200. -/
theorem C7_counterexample :
    (process_state_update
        ⟨fun sj => if sj = 5 then
            some (fun g => if g = 1 then some ⟨1, 10101, 100⟩ else none) else none, []⟩
        [⟨10101, 5, 1, 1⟩, ⟨10101, 5, 2, 7⟩] 200).1.2 =
      some ⟨true, [5], [], [], [(5, [2])]⟩ ∧
    cacheLookup (process_state_update
        ⟨fun sj => if sj = 5 then
            some (fun g => if g = 1 then some ⟨1, 10101, 100⟩ else none) else none, []⟩
        [⟨10101, 5, 1, 1⟩, ⟨10101, 5, 2, 7⟩] 200).2.cache 5 1 = some ⟨1, 10101, 200⟩ ∧
    cacheLookup
        (⟨fun sj => if sj = 5 then
            some (fun g => if g = 1 then some ⟨1, 10101, 100⟩ else none) else none,
          []⟩ : SMState).cache 5 1 = some ⟨1, 10101, 100⟩ := by
  refine ⟨by decide, by decide, by decide⟩

/-- C7 (amended): `process_state_update` merges rather than replaces — a
cache entry `(si, fn)` is untouched whenever no batch entry addresses that
exact pair, or its device is not among the changed devices; and for every
changed device, every `(si, fn)` pair grouped from the batch for it is
overwritten with its batch value and the batch timestamp, including pairs
whose value did not change. -/
theorem C7_merge_amended :
    (∀ (s : SMState) (batch : List RawStateEntry) (now si fn : Int),
       (si ∉ (compareStates s.cache (organizeStatesData now batch)).changed_devices ∨
        ∀ e ∈ batch, ¬(e.si = si ∧ e.fn = fn)) →
       cacheLookup (process_state_update s batch now).2.cache si fn =
         cacheLookup s.cache si fn) ∧
    (∀ (s : SMState) (batch : List RawStateEntry) (now : Int) (p : Int × InnerDict)
       (q : Int × CachedState), p ∈ organizeStatesData now batch →
       p.1 ∈ (compareStates s.cache (organizeStatesData now batch)).changed_devices →
       q ∈ p.2 →
       cacheLookup (process_state_update s batch now).2.cache p.1 q.1 = some q.2) :=
  ⟨process_frame, fun s batch now _p _q hp hmem hq => process_overwrite s batch now hp hmem hq⟩

/-- C7 (witness): with `(5,1)` cached and a batch touching only `fn = 2` of
device 5, the `(5,1)` entry reads back unchanged, while the batch pair
`(5,2)` is overwritten with its batch value and timestamp. -/
theorem C7_witness :
    cacheLookup (process_state_update
        ⟨fun sj => if sj = 5 then
            some (fun g => if g = 1 then some ⟨1, 10101, 100⟩ else none) else none, []⟩
        [⟨10101, 5, 2, 7⟩] 300).2.cache 5 1 =
      cacheLookup
        (⟨fun sj => if sj = 5 then
            some (fun g => if g = 1 then some ⟨1, 10101, 100⟩ else none) else none,
          []⟩ : SMState).cache 5 1 ∧
    cacheLookup (process_state_update
        ⟨fun sj => if sj = 5 then
            some (fun g => if g = 1 then some ⟨1, 10101, 100⟩ else none) else none, []⟩
        [⟨10101, 5, 2, 7⟩] 300).2.cache 5 2 = some ⟨7, 10101, 300⟩ :=
  ⟨C7_merge_amended.1 _ [⟨10101, 5, 2, 7⟩] 300 5 1 (Or.inr (by decide)),
   C7_merge_amended.2 _ [⟨10101, 5, 2, 7⟩] 300 (5, [(2, ⟨7, 10101, 300⟩)])
     (2, ⟨7, 10101, 300⟩) (by decide) (by decide) (by decide)⟩

/-- Helper: the default-then-lookup `cache.get(si, {})` read agrees with
`cacheLookup`. -/
theorem getD_emptyInner_eq_cacheLookup (c : Cache) (si fn : Int) :
    ((c si).getD emptyInner) fn = cacheLookup c si fn := by
  unfold cacheLookup
  cases c si <;> rfl

/-- C5 (counterexample): the claim says `force_update_device` always reports
the key as changed to listeners, but the notification is only sent when the
devices-info cache holds a matching device.  In the scenario state — the
cache right after processing `[{st:10101, si:5, fn:1, fv:1}]`, devices-info
cache empty — `force_update_device 5 1 0` overwrites the cache entry yet
sends no change-set at all. -/
theorem C5_counterexample :
    (force_update_device (process_state_update (smInit []) [⟨10101, 5, 1, 1⟩] 100).2
       5 1 0 200).2 = none ∧
    cacheLookup (force_update_device
       (process_state_update (smInit []) [⟨10101, 5, 1, 1⟩] 100).2
       5 1 0 200).1.cache 5 1 = some ⟨0, 10101, 200⟩ := by
  refine ⟨by decide, by decide⟩

/-- C5 (amended): `force_update_device si fn fv` always bypasses comparison
and overwrites the cache entry for `(si, fn)` with `fv`, the synthetic
default `st = 10101` and the current timestamp; and whenever the devices-info
cache contains a device with matching `si`, it always notifies listeners with
`hasChanges = true` and `changedFunctions = {si: {fn: (oldFv, fv)}}`, even
when the cached `fv` already equalled `fv`. -/
theorem C5_force_update_amended (s : SMState) (si fn fv now : Int) :
    cacheLookup (force_update_device s si fn fv now).1.cache si fn =
      some ⟨fv, 10101, now⟩ ∧
    ((s.devices.find? (fun d => d.si == some si)).isSome = true →
      (force_update_device s si fn fv now).2 =
        some ⟨true, [si],
              [(si, [(fn, ((cacheLookup s.cache si fn).map CachedState.fv, fv))])],
              [], []⟩) := by
  constructor
  · unfold force_update_device
    cases s.devices.find? (fun d => d.si == some si) with
    | none =>
      show cacheLookup (fun sj => if sj = si then
          some (updFn ((s.cache si).getD emptyInner) fn ⟨fv, 10101, now⟩)
          else s.cache sj) si fn = some ⟨fv, 10101, now⟩
      rw [cacheLookup_update_self]
      unfold updFn
      simp
    | some d =>
      show cacheLookup (fun sj => if sj = si then
          some (updFn ((s.cache si).getD emptyInner) fn ⟨fv, 10101, now⟩)
          else s.cache sj) si fn = some ⟨fv, 10101, now⟩
      rw [cacheLookup_update_self]
      unfold updFn
      simp
  · intro hsome
    unfold force_update_device
    cases hf : s.devices.find? (fun d => d.si == some si) with
    | none => rw [hf] at hsome; simp at hsome
    | some d =>
      show some (⟨true, [si],
          [(si, [(fn, ((((s.cache si).getD emptyInner) fn).map CachedState.fv, fv))])],
          [], []⟩ : ChangeSet) =
        some ⟨true, [si],
          [(si, [(fn, ((cacheLookup s.cache si fn).map CachedState.fv, fv))])],
          [], []⟩
      rw [getD_emptyInner_eq_cacheLookup]

/-- C5 (witness): with device 5 present in the devices-info cache and
`(5, 1) ↦ 0` already cached, `force_update_device 5 1 0` still overwrites and
still reports `changedFunctions = {5: {1: (0, 0)}}`. -/
theorem C5_witness :
    cacheLookup (force_update_device
        ⟨fun sj => if sj = 5 then
            some (fun g => if g = 1 then some ⟨0, 10101, 10⟩ else none) else none,
          [⟨some 5⟩]⟩ 5 1 0 20).1.cache 5 1 = some ⟨0, 10101, 20⟩ ∧
    (force_update_device
        ⟨fun sj => if sj = 5 then
            some (fun g => if g = 1 then some ⟨0, 10101, 10⟩ else none) else none,
          [⟨some 5⟩]⟩ 5 1 0 20).2 =
      some ⟨true, [5], [(5, [(1, (some 0, 0))])], [], []⟩ := by
  have h := C5_force_update_amended
    ⟨fun sj => if sj = 5 then
        some (fun g => if g = 1 then some ⟨0, 10101, 10⟩ else none) else none,
      [⟨some 5⟩]⟩ 5 1 0 20
  exact ⟨h.1, (h.2 (by decide)).trans (by decide)⟩

/-- C6: while the router's mode string is `"mqtt"`, `handle_polling_states`
is a no-op — state-manager cache, counters and everything else are returned
unchanged and no coordinator notification is produced; symmetrically,
`handle_mqtt_states` and `handle_fallback_states` are no-ops while the mode
string is `"polling"`. -/
theorem C6_mode_gating :
    (∀ (r : RouterState) (batch : List RawStateEntry) (now : Int),
       r.current_mode = RouterMode.mqtt →
       handle_polling_states r batch now = (r, none)) ∧
    (∀ (r : RouterState) (batch : List RawStateEntry) (now : Int),
       r.current_mode = RouterMode.polling →
       handle_mqtt_states r batch now = (r, none) ∧
       handle_fallback_states r batch now = (r, none)) := by
  constructor
  · intro r batch now hmode
    have hgate : using_polling r = false := by
      unfold using_polling
      rw [hmode]
      rfl
    unfold handle_polling_states
    rw [if_pos hgate]
  · intro r batch now hmode
    have hgate : using_mqtt r = false := by
      unfold using_mqtt
      rw [hmode]
      rfl
    constructor
    · unfold handle_mqtt_states
      rw [if_pos hgate]
    · unfold handle_fallback_states
      rw [if_pos hgate]

/-- C6 (witness): the gating evaluated on a router in mqtt mode receiving a
poll batch, and on a router in polling mode receiving push and fallback
batches. -/
theorem C6_witness :
    handle_polling_states ⟨RouterMode.mqtt, true, false, smInit [], 0, 0, 0⟩
        [⟨10101, 5, 1, 1⟩] 0 =
      (⟨RouterMode.mqtt, true, false, smInit [], 0, 0, 0⟩, none) ∧
    handle_mqtt_states ⟨RouterMode.polling, false, true, smInit [], 0, 0, 0⟩
        [⟨10101, 5, 1, 1⟩] 0 =
      (⟨RouterMode.polling, false, true, smInit [], 0, 0, 0⟩, none) ∧
    handle_fallback_states ⟨RouterMode.polling, false, true, smInit [], 0, 0, 0⟩
        [⟨10101, 5, 1, 1⟩] 0 =
      (⟨RouterMode.polling, false, true, smInit [], 0, 0, 0⟩, none) :=
  ⟨C6_mode_gating.1 _ _ 0 rfl,
   (C6_mode_gating.2 ⟨RouterMode.polling, false, true, smInit [], 0, 0, 0⟩ _ 0 rfl).1,
   (C6_mode_gating.2 ⟨RouterMode.polling, false, true, smInit [], 0, 0, 0⟩ _ 0 rfl).2⟩

/-- C10: right after construction, and after `stop()` from any state, the
mode named by `get_current_mode` has its active flag false, `using_polling`
and `using_mqtt` are both false, and all three batch handlers drop any batch,
returning the router state unchanged (cache untouched) with no notification. -/
theorem C10_inactive_after_construct_and_stop (sm : SMState) (r : RouterState)
    (batch : List RawStateEntry) (now : Int) :
    modeActiveFlag (routerInit sm) (get_current_mode (routerInit sm)) = false ∧
    using_polling (routerInit sm) = false ∧
    using_mqtt (routerInit sm) = false ∧
    handle_mqtt_states (routerInit sm) batch now = (routerInit sm, none) ∧
    handle_polling_states (routerInit sm) batch now = (routerInit sm, none) ∧
    handle_fallback_states (routerInit sm) batch now = (routerInit sm, none) ∧
    modeActiveFlag (routerStop r) (get_current_mode (routerStop r)) = false ∧
    using_polling (routerStop r) = false ∧
    using_mqtt (routerStop r) = false ∧
    handle_mqtt_states (routerStop r) batch now = (routerStop r, none) ∧
    handle_polling_states (routerStop r) batch now = (routerStop r, none) ∧
    handle_fallback_states (routerStop r) batch now = (routerStop r, none) := by
  have hsp : using_polling (routerStop r) = false := by
    unfold using_polling routerStop
    simp
  have hsm : using_mqtt (routerStop r) = false := by
    unfold using_mqtt routerStop
    simp
  refine ⟨rfl, rfl, rfl, rfl, rfl, rfl, ?_, hsp, hsm, ?_, ?_, ?_⟩
  · unfold modeActiveFlag get_current_mode routerStop
    cases r.current_mode <;> rfl
  · unfold handle_mqtt_states
    rw [if_pos hsm]
  · unfold handle_polling_states
    rw [if_pos hsp]
  · unfold handle_fallback_states
    rw [if_pos hsm]
/-- Inserting an unbound key appends it at the tail. -/
theorem dictInsert_eq_append {κ α : Type} [DecidableEq κ] {k : κ} (v : α) :
    ∀ {l : List (κ × α)}, dictLookup k l = none → dictInsert k v l = l ++ [(k, v)] := by
  intro l
  induction l with
  | nil => intro _; rfl
  | cons p rest ih =>
    intro h
    by_cases hpk : p.1 = k
    · simp [dictLookup, hpk] at h
    · simp only [dictLookup, hpk, if_false] at h
      simp only [dictInsert, hpk, if_false, List.cons_append]
      rw [ih h]

/-- One `_process_queue` pass on a running bus with head action `a`: pops it,
runs the flow, clears the executing slot and `a`'s occupancy. -/
theorem processOne_cons (b : BusState) (a : DeviceAction) (rest : List DeviceAction)
    (hrun : b.is_running = true) (hq : b.queue = a :: rest) (success : Bool) :
    processOne b success =
      { b with queue := rest, executing := none,
               occupied := dictErase a.entity_id b.occupied } := by
  unfold processOne
  rw [hrun, if_neg (by simp), hq]

/-- C3: while a target has a live action (an entry in the occupancy dict), a
second `submit_action` for the same target fails synchronously with the
contention error (`ValueError`) and leaves the whole bus state — queue and
occupancy included — unchanged; once the first action's execution flow
completes and `_process_queue` clears its occupancy, a resubmission for that
target succeeds and returns the freshly generated action id. -/
theorem C3_mutual_exclusion :
    (∀ (b : BusState) (d st si fn fv : Int) (e aid : String) (now : Int),
       b.is_running = true → dictLookup e b.occupied = some aid →
       submit_action b d st si fn fv e now =
         (Except.error (SubmitErr.deviceOccupied e aid), b)) ∧
    (∀ (b : BusState) (d st si fn fv d2 st2 si2 fn2 fv2 : Int) (e : String)
       (now1 : Int) (success : Bool) (now2 : Int),
       b.is_running = true → b.queue = [] → dictLookup e b.occupied = none →
       (submit_action (processOne (submit_action b d st si fn fv e now1).2 success)
          d2 st2 si2 fn2 fv2 e now2).1 =
         Except.ok ("action_" ++ toString (1000 * now2))) := by
  constructor
  · intro b d st si fn fv e aid now hrun hocc
    unfold submit_action
    rw [hrun, if_neg (by simp), hocc]
  · intro b d st si fn fv d2 st2 si2 fn2 fv2 e now1 success now2 hrun hq hocc
    have hstep : (submit_action b d st si fn fv e now1).2 =
        { b with
          queue := b.queue ++ [⟨d, st, si, fn, fv, "action_" ++ toString (1000 * now1), e,
                                now1, ActionStatus.pending, none, none⟩],
          occupied := dictInsert e ("action_" ++ toString (1000 * now1)) b.occupied } := by
      unfold submit_action
      rw [hrun, if_neg (by simp), hocc]
    have hq1 : (submit_action b d st si fn fv e now1).2.queue =
        [⟨d, st, si, fn, fv, "action_" ++ toString (1000 * now1), e, now1,
          ActionStatus.pending, none, none⟩] := by
      rw [hstep, hq]
      rfl
    have hrun1 : (submit_action b d st si fn fv e now1).2.is_running = true := by
      rw [hstep]
      exact hrun
    have hproc := processOne_cons _ _ _ hrun1 hq1 success
    have hocc2 : (processOne (submit_action b d st si fn fv e now1).2 success).occupied =
        b.occupied := by
      rw [hproc]
      show dictErase e (submit_action b d st si fn fv e now1).2.occupied = b.occupied
      rw [hstep]
      show dictErase e (dictInsert e ("action_" ++ toString (1000 * now1)) b.occupied) =
        b.occupied
      rw [dictInsert_eq_append _ hocc, dictErase_append_self hocc]
    have hrun2 : (processOne (submit_action b d st si fn fv e now1).2 success).is_running =
        true := by
      rw [hproc]
      exact hrun1
    set b2 := processOne (submit_action b d st si fn fv e now1).2 success with hb2
    unfold submit_action
    rw [hrun2, if_neg (by simp), hocc2, hocc]

/-- C3 (witness): the contention rejection on an occupied target, and the
successful resubmission after the first action's flow completes. -/
theorem C3_witness :
    submit_action ⟨[], none, [("cover.x", "action_1000")], true⟩ 1 2 3 4 5 "cover.x" 9 =
      (Except.error (SubmitErr.deviceOccupied "cover.x" "action_1000"),
       ⟨[], none, [("cover.x", "action_1000")], true⟩) ∧
    (submit_action
        (processOne (submit_action ⟨[], none, [], true⟩ 1 2 3 4 5 "light.y" 6).2 true)
        1 2 3 4 6 "light.y" 7).1 = Except.ok "action_7000" :=
  ⟨C3_mutual_exclusion.1 _ 1 2 3 4 5 "cover.x" "action_1000" 9 rfl (by decide),
   C3_mutual_exclusion.2 ⟨[], none, [], true⟩ 1 2 3 4 5 1 2 3 4 6 "light.y" 6 true 7
     rfl rfl rfl⟩

/-- C4 (counterexample): a payload missing `fv` is dropped with no callback
invocation, but `parse_errors` stays at 0 — `_handle_message` counts parse
errors only for JSON-decode failures and handler exceptions, not for
missing-field payloads, contradicting the claim that the statistic is
incremented. -/
theorem C4_counterexample :
    handle_message ⟨0, 0, 0⟩ true (InboundMessage.withPayload ⟨some 1, some 2, some 3, none⟩) =
      (⟨1, 0, 0⟩, none) ∧
    (handle_message ⟨0, 0, 0⟩ true
      (InboundMessage.withPayload ⟨some 1, some 2, some 3, none⟩)).1.parse_errors = 0 := by
  exact ⟨rfl, rfl⟩

/-- C4 (amended): a decoded payload missing any of `st, si, fn, fv` is
dropped — the state callback is not invoked and only `messages_received` is
incremented, `parse_errors` staying unchanged (it counts JSON-decode
failures and handler exceptions only); a payload carrying all four fields is
forwarded to the configured state callback as exactly the one-element batch
`[{st, si, fn, fv}]`, with `messages_received` and `messages_parsed`
incremented. -/
theorem C4_gateway_amended :
    (∀ (g : GatewayStats) (cb : Bool) (p : PushPayload),
       (p.st = none ∨ p.si = none ∨ p.fn = none ∨ p.fv = none) →
       handle_message g cb (InboundMessage.withPayload p) =
         ({ g with messages_received := g.messages_received + 1 }, none)) ∧
    (∀ (g : GatewayStats) (a b c d : Int),
       handle_message g true (InboundMessage.withPayload ⟨some a, some b, some c, some d⟩) =
         ({ g with messages_received := g.messages_received + 1,
                   messages_parsed := g.messages_parsed + 1 }, some [⟨a, b, c, d⟩])) := by
  constructor
  · intro g cb p hmiss
    obtain ⟨pst, psi, pfn, pfv⟩ := p
    have hnorm : normalize_state_data ⟨pst, psi, pfn, pfv⟩ = none := by
      cases pst <;> cases psi <;> cases pfn <;> cases pfv <;>
        simp_all [normalize_state_data]
    simp only [handle_message, hnorm]
  · intro g a b c d
    rfl

/-- C4 (witness): the amended behaviour on a payload missing `fv` and on a
complete payload. -/
theorem C4_witness :
    handle_message ⟨0, 0, 0⟩ true (InboundMessage.withPayload ⟨some 1, some 2, some 3, none⟩) =
      (⟨1, 0, 0⟩, none) ∧
    handle_message ⟨3, 1, 2⟩ true
        (InboundMessage.withPayload ⟨some 10101, some 5, some 1, some 1⟩) =
      (⟨4, 2, 2⟩, some [⟨10101, 5, 1, 1⟩]) :=
  ⟨C4_gateway_amended.1 ⟨0, 0, 0⟩ true ⟨some 1, some 2, some 3, none⟩
     (Or.inr (Or.inr (Or.inr rfl))),
   C4_gateway_amended.2 ⟨3, 1, 2⟩ 10101 5 1 1⟩

/-- C8: after a poll tick at wall-clock time `w`, the loop itself recomputes
mode and `next_poll_time`: in short mode with `w` still before
`short_polling_end_time` it stays short and schedules `w + S`; once `w` has
reached `short_polling_end_time` it reverts to long and schedules `w + L` —
so a burst decays back to long on the first tick at or after its end time,
with no caller involvement. -/
theorem C8_recompute_after_tick (cfg : PollingConfig) (s : PollState) (enter : Int)
    (hshort : s.current_mode = PollMode.short) :
    ((loopIteration cfg s enter).1 < s.short_polling_end_time →
       (loopIteration cfg s enter).2.current_mode = PollMode.short ∧
       (loopIteration cfg s enter).2.next_poll_time =
         (loopIteration cfg s enter).1 + cfg.short_polling_interval) ∧
    (s.short_polling_end_time ≤ (loopIteration cfg s enter).1 →
       (loopIteration cfg s enter).2.current_mode = PollMode.long ∧
       (loopIteration cfg s enter).2.next_poll_time =
         (loopIteration cfg s enter).1 + cfg.long_polling_interval) := by
  obtain ⟨run, mode, npt, spe, lot, ms⟩ := s
  simp only at hshort
  subst hshort
  unfold loopIteration calculate_next_poll_time
  constructor
  · intro hw
    dsimp only at hw ⊢
    rw [if_neg (by omega)]
    exact ⟨rfl, rfl⟩
  · intro hw
    dsimp only at hw ⊢
    rw [if_pos (by omega)]
    exact ⟨rfl, rfl⟩

/-- C8 (witness): with `L = 15, S = 1, burst = 5`, a tick waking at `t = 4`
inside a burst ending at `t = 8` stays short and schedules `t = 5`; a tick
waking at `t = 9` after the burst end reverts to long and schedules
`t = 24`. -/
theorem C8_witness :
    ((loopIteration ⟨15, 1, 5⟩ ⟨true, PollMode.short, 4, 8, 3, 1⟩ 2).2.current_mode =
        PollMode.short ∧
     (loopIteration ⟨15, 1, 5⟩ ⟨true, PollMode.short, 4, 8, 3, 1⟩ 2).2.next_poll_time =
        (loopIteration ⟨15, 1, 5⟩ ⟨true, PollMode.short, 4, 8, 3, 1⟩ 2).1 + 1) ∧
    ((loopIteration ⟨15, 1, 5⟩ ⟨true, PollMode.short, 9, 8, 3, 1⟩ 2).2.current_mode =
        PollMode.long ∧
     (loopIteration ⟨15, 1, 5⟩ ⟨true, PollMode.short, 9, 8, 3, 1⟩ 2).2.next_poll_time =
        (loopIteration ⟨15, 1, 5⟩ ⟨true, PollMode.short, 9, 8, 3, 1⟩ 2).1 + 15) :=
  ⟨(C8_recompute_after_tick ⟨15, 1, 5⟩ ⟨true, PollMode.short, 4, 8, 3, 1⟩ 2 rfl).1
     (by decide),
   (C8_recompute_after_tick ⟨15, 1, 5⟩ ⟨true, PollMode.short, 9, 8, 3, 1⟩ 2 rfl).2
     (by decide)⟩

/-- C1: `trigger_short_polling` does set `short_polling_end_time =
now + burstDuration`, switch the mode to short immediately and rewrite
`next_poll_time = now + S`; but the polling loop's `asyncio.sleep` was
computed from `next_poll_time` before the trigger and is neither cancelled
nor signalled, so the poll after a mid-sleep trigger still happens at the
originally scheduled deadline.  Concretely, with `L = 15, S = 1, burst = 5`,
the scheduler started at `t = 0` (asleep until `t = 15`) and triggered at
`t = 3`: the trigger records mode short, burst end 8 and `next_poll_time 4`,
yet the next poll happens at `t = 15`, not at `t = 3 + 1 = 4` as the spec
requires. -/
theorem C1_trigger_does_not_preempt_sleep :
    (∀ (cfg : PollingConfig) (s : PollState) (enter trigAt : Int),
       (loopIterWithMidSleepTrigger cfg s enter trigAt).1 = max enter s.next_poll_time) ∧
    (trigger_short_polling ⟨15, 1, 5⟩ (pollingStart ⟨15, 1, 5⟩ 0) 3).current_mode =
      PollMode.short ∧
    (trigger_short_polling ⟨15, 1, 5⟩ (pollingStart ⟨15, 1, 5⟩ 0) 3).short_polling_end_time
      = 8 ∧
    (trigger_short_polling ⟨15, 1, 5⟩ (pollingStart ⟨15, 1, 5⟩ 0) 3).next_poll_time = 4 ∧
    (loopIterWithMidSleepTrigger ⟨15, 1, 5⟩ (pollingStart ⟨15, 1, 5⟩ 0) 0 3).1 = 15 ∧
    (15 : Int) ≠ 3 + 1 :=
  ⟨fun _ _ _ _ => rfl, by decide, by decide, by decide, by decide, by decide⟩
